import Mathlib

/-!
Verification development for the `ensure_version` repository
(`src/ensure_version.ts`, re-exported by `src/mod.ts`).

The source file contains two near-duplicate implementations of the public
entry point `ensureVersion` (the spec calls them the "simple" variant and the
"richer"/catalog-aware variant).  Both are embedded here:

* `ensureVersionSimple`   — the first implementation (advisory via
  `maxMinor` / `maxPatch` / `range` over a synthesized version space);
* `ensureVersionCatalog`  — the second implementation (advisory via
  `maxOriginVersion` over a release catalog, with `typescript` and `v8`
  skipped by an explicit `continue`).

The semantic-version comparison library lives in `deps.ts`, which is not part
of `src/`; it is modelled below from the spec (section "Semantic-Version
Comparison Helpers").  Machine strings are modelled as Lean `String`s, JS
exceptions as an explicit `Except` result, and console output as an explicit
list of log lines.
-/

/-! ## Character/string utilities (model of `String.prototype.split`, etc.) -/

/-- Fuel-driven splitter: splits `hay` at every occurrence of the separator
`c0 :: rest0` (a non-empty character sequence), mirroring JavaScript's
`String.prototype.split(sep)`.  The fuel is always instantiated with the
length of the haystack, which suffices. -/
def splitSubFuel (c0 : Char) (rest0 : List Char) : Nat → List Char → List Char → List (List Char)
  | _, [], acc => [acc.reverse]
  | 0, hay, acc => [acc.reverse ++ hay]
  | fuel + 1, c :: hay, acc =>
    if c == c0 && rest0.isPrefixOf hay then
      acc.reverse :: splitSubFuel c0 rest0 fuel (hay.drop rest0.length) []
    else
      splitSubFuel c0 rest0 fuel hay (c :: acc)

/-- `splitSub c0 rest0 hay` = JavaScript `hay.split(c0 :: rest0)`. -/
def splitSub (c0 : Char) (rest0 : List Char) (hay : List Char) : List (List Char) :=
  splitSubFuel c0 rest0 hay.length hay []

/-- JavaScript `Array.prototype.join('.')`. -/
def joinDots : List String → String
  | [] => ""
  | [x] => x
  | x :: y :: xs => x ++ "." ++ joinDots (y :: xs)

/-- Strip leading and trailing spaces. -/
def trimSpaces (cs : List Char) : List Char :=
  ((cs.dropWhile (fun c => c == ' ')).reverse.dropWhile (fun c => c == ' ')).reverse

/-- Parse a non-empty all-digit character list as a natural number. -/
def parseNatAux : List Char → Nat → Option Nat
  | [], acc => some acc
  | c :: rest, acc =>
    if c.isDigit then parseNatAux rest (acc * 10 + (c.toNat - 48)) else none

/-- Numeric token parser (used for the dotted components of versions). -/
def parseNatTok : List Char → Option Nat
  | [] => none
  | c :: rest => parseNatAux (c :: rest) 0

/-- `trunc3 s` embeds the source expression
`s.split('.').slice(0, 3).join('.')` used by both variants to truncate a
version (or, in the catalog variant, a whole range string) to its first three
dot-separated segments. -/
def trunc3 (s : String) : String :=
  joinDots (((splitSub '.' [] s.data).map String.mk).take 3)

/-- Substring search on character lists (no library dependency, so that the
search is kernel-evaluable and easy to reason about). -/
def listContainsSeq (needle : List Char) : List Char → Bool
  | [] => needle.isEmpty
  | c :: rest => needle.isPrefixOf (c :: rest) || listContainsSeq needle rest

/-- `strContains hay needle` — does `needle` occur as a contiguous substring
of `hay`? -/
def strContains (hay needle : String) : Bool :=
  listContainsSeq needle.data hay.data

/-! ## The semver collaborator

Modelled from the spec: the semantic-version range/comparison library is an
external collaborator imported from `deps.ts`, which is not under `src/`.
Per the spec's "Semantic-Version Comparison Helpers": pure functions that
parse a dotted numeric string into a version triple (at least three numeric
components, extras ignored); test a triple against a range expression in
standard semver range syntax (exact versions, comparators `<`, `<=`, `>`,
`>=`, `=`, hyphen ranges `A - B`, OR-combinators `||`, bare partial versions
treated as "compatible within"); and compute the maximum candidate satisfying
a range.  Malformed range syntax is a `TypeError`-class failure, distinct
from a legitimate mismatch. -/

/-- A parsed `major.minor.patch` version triple. -/
structure Triple where
  major : Nat
  minor : Nat
  patch : Nat
deriving DecidableEq, Repr

/-- JavaScript error classes thrown by the guard: `TypeError`
(MalformedRequirement) and `RangeError` (VersionMismatch, and the accidental
`Invalid array length` of `new Array(n)` with negative `n`). -/
inductive JsError where
  | typeError (msg : String)
  | rangeError (msg : String)
deriving DecidableEq, Repr

/-- Strict lexicographic order on version triples. -/
def tripleLt (a b : Triple) : Bool :=
  Nat.blt a.major b.major ||
    (Nat.beq a.major b.major &&
      (Nat.blt a.minor b.minor ||
        (Nat.beq a.minor b.minor && Nat.blt a.patch b.patch)))

/-- Primitive range comparators. -/
inductive Cmp where
  | ceq | clt | cle | cgt | cge
deriving DecidableEq, Repr

/-- Does triple `t` satisfy the primitive constraint `(op, bound)`? -/
def satCmp (op : Cmp) (t bound : Triple) : Bool :=
  match op with
  | .ceq => t == bound
  | .clt => tripleLt t bound
  | .cle => tripleLt t bound || t == bound
  | .cgt => tripleLt bound t
  | .cge => tripleLt bound t || t == bound

/-- The dotted numeric components of a token. -/
def compsOf (tok : List Char) : List (Option Nat) :=
  (splitSub '.' [] tok).map parseNatTok

/-- Parse a dotted numeric string into a version triple: at least three
numeric components are required and components beyond the third are
ignored (spec, "Data Model"). -/
def parseVersion? (s : String) : Option Triple :=
  match compsOf s.data with
  | some a :: some b :: some c :: _ => some ⟨a, b, c⟩
  | _ => none

/-- A bare version token used as a range: a full triple means an exact
version, a one- or two-component token means "compatible within" that
major (resp. major.minor) series. -/
def bareConstraints? (tok : List Char) : Option (List (Cmp × Triple)) :=
  match compsOf tok with
  | [some a] => some [(.cge, ⟨a, 0, 0⟩), (.clt, ⟨a + 1, 0, 0⟩)]
  | [some a, some b] => some [(.cge, ⟨a, b, 0⟩), (.clt, ⟨a, b + 1, 0⟩)]
  | [some a, some b, some c] => some [(.ceq, ⟨a, b, c⟩)]
  | _ => none

/-- A version token following a comparator operator; shorter tokens are
padded with zero components. -/
def padTriple? (tok : List Char) : Option Triple :=
  match compsOf tok with
  | [some a] => some ⟨a, 0, 0⟩
  | [some a, some b] => some ⟨a, b, 0⟩
  | [some a, some b, some c] => some ⟨a, b, c⟩
  | _ => none

/-- Split a leading comparator operator off a token. -/
def opSplit (tok : List Char) : Option Cmp × List Char :=
  match tok with
  | '>' :: '=' :: rest => (some .cge, rest)
  | '<' :: '=' :: rest => (some .cle, rest)
  | '>' :: rest => (some .cgt, rest)
  | '<' :: rest => (some .clt, rest)
  | '=' :: rest => (some .ceq, rest)
  | _ => (none, tok)

/-- Constraints of a single space-separated token of a range alternative. -/
def tokenConstraints? (tok : List Char) : Option (List (Cmp × Triple)) :=
  match opSplit tok with
  | (some op, rest) => (padTriple? rest).map (fun t => [(op, t)])
  | (none, _) => bareConstraints? tok

/-- Constraints of a hyphen range `A - B`: at least the lower bound, at most
the upper bound (an upper version with fewer components excludes the next
series, in the standard way). -/
def hyphenConstraints? (l r : List Char) : Option (List (Cmp × Triple)) := do
  let lower ← padTriple? (trimSpaces l)
  let upper ←
    match compsOf (trimSpaces r) with
    | [some a] => some [(Cmp.clt, (⟨a + 1, 0, 0⟩ : Triple))]
    | [some a, some b] => some [(Cmp.clt, (⟨a, b + 1, 0⟩ : Triple))]
    | [some a, some b, some c] => some [(Cmp.cle, (⟨a, b, c⟩ : Triple))]
    | _ => none
  pure ((Cmp.cge, lower) :: upper)

/-- Constraints of one `||`-alternative of a range expression. -/
def altConstraints? (alt : List Char) : Option (List (Cmp × Triple)) :=
  match splitSub ' ' ['-', ' '] alt with
  | [l, r] => hyphenConstraints? l r
  | [single] =>
    match (splitSub ' ' [] (trimSpaces single)).filter (fun t => !t.isEmpty) with
    | [] => none
    | t :: ts => ((t :: ts).mapM tokenConstraints?).map List.flatten
  | _ => none

/-- Parse a range expression into a disjunction (over `||`) of conjunctions
of primitive constraints.  `none` means malformed range syntax. -/
def parseRange? (r : String) : Option (List (List (Cmp × Triple))) :=
  (splitSub '|' ['|'] r.data).mapM (fun alt => altConstraints? (trimSpaces alt))

/-- Does triple `t` satisfy a parsed range? -/
def satAst (ast : List (List (Cmp × Triple))) (t : Triple) : Bool :=
  ast.any (fun alt => alt.all (fun c => satCmp c.1 t c.2))

/-- `semver.satisfies(v, r)`: malformed range syntax is a `TypeError`-class
failure; an unparseable version merely fails to satisfy. -/
def satisfies (v r : String) : Except JsError Bool :=
  match parseRange? r with
  | none => .error (.typeError ("Invalid range: " ++ r))
  | some ast =>
    .ok (match parseVersion? v with
      | some t => satAst ast t
      | none => false)

/-- Maximum-satisfying scan over a candidate list, tracking the best
candidate (string and parsed triple) so far. -/
def pickMax (ast : List (List (Cmp × Triple))) :
    List String → Option (String × Triple) → Option String
  | [], best => best.map (fun b => b.1)
  | v :: rest, best =>
    match parseVersion? v with
    | none => pickMax ast rest best
    | some t =>
      if satAst ast t then
        match best with
        | none => pickMax ast rest (some (v, t))
        | some (bv, bt) =>
          if tripleLt bt t then pickMax ast rest (some (v, t))
          else pickMax ast rest (some (bv, bt))
      else pickMax ast rest best

/-- `semver.maxSatisfying(versions, r)`: the maximum candidate satisfying the
range, or nothing when none does. -/
def maxSatisfying (versions : List String) (r : String) : Except JsError (Option String) :=
  match parseRange? r with
  | none => .error (.typeError ("Invalid range: " ++ r))
  | some ast => .ok (pickMax ast versions none)

/-- `semver.major(v)`. -/
def semverMajor (v : String) : Except JsError Nat :=
  match parseVersion? v with
  | some t => .ok t.major
  | none => .error (.typeError ("Invalid version: " ++ v))

/-- `semver.minor(v)`. -/
def semverMinor (v : String) : Except JsError Nat :=
  match parseVersion? v with
  | some t => .ok t.minor
  | none => .error (.typeError ("Invalid version: " ++ v))

/-- `semver.patch(v)`. -/
def semverPatch (v : String) : Except JsError Nat :=
  match parseVersion? v with
  | some t => .ok t.patch
  | none => .error (.typeError ("Invalid version: " ++ v))

/-! ## The Version Guard data model

Embedding of `src/ensure_version.ts`.  `Deno.version` is the ambient
`RuntimeVersionSet`: a mapping from the fixed component keys `deno`, `v8`,
`typescript` (in their fixed enumeration order, which the `for _key in
Deno.version` loop follows) to raw version strings; it is a parameter
`running` of the embedded functions.  A caller-supplied requirement mapping
is a JavaScript object, embedded as an insertion-ordered association list
whose values may themselves be `undefined` (`Option String`), so that
`Object.keys` counts keys with undefined values, exactly as in JS. -/

/-- The fixed component keys of `Deno.version`. -/
inductive Key where
  | deno | v8 | typescript
deriving DecidableEq, Repr

/-- The canonical enumeration order of `Deno.version`'s keys, which the
`for _key in Deno.version` loop follows. -/
def canonicalKeys : List Key := [Key.deno, Key.v8, Key.typescript]

/-- The property name of a component key. -/
def Key.name : Key → String
  | .deno => "deno"
  | .v8 => "v8"
  | .typescript => "typescript"

/-- A caller-supplied requirement object: own properties in insertion order,
each possibly holding `undefined`. -/
abbrev ReqEntries := List (Key × Option String)

/-- Property read `version[key]` on a requirement object: `undefined` when
the key is absent or its value is `undefined`. -/
def lookupEntry (entries : ReqEntries) (k : Key) : Option String :=
  match entries.find? (fun e => e.1 == k) with
  | some e => e.2
  | none => none

/-- The `version` argument of `ensureVersion`: `undefined`, a bare range
string, or a mapping object. -/
inductive Requirement where
  | undef
  | str (s : String)
  | map (entries : ReqEntries)

/-- Console severity of an advisory line (`console.warn` for the minor
advisory, `console.info` for the patch advisory). -/
inductive LogLevel where
  | warn | info
deriving DecidableEq, Repr

/-- One console-directed advisory line, tagged with its severity and the
component key it concerns. -/
structure LogLine where
  level : LogLevel
  key : Key
  msg : String
deriving DecidableEq, Repr

/-- Observable outcome of one invocation: normal return or thrown error,
together with the advisory lines emitted before that point. -/
abbrev Outcome := Except JsError Unit × List LogLine

deriving instance DecidableEq for Except

/-- Message of the `TypeError` thrown for an `undefined` requirement
(`"version" : [${version}] is not a valid semver` with `${undefined}`
rendering as `undefined`). -/
def undefMsg : String := "\"version\" : [undefined] is not a valid semver"

/-- Message of the `TypeError` thrown for an empty mapping; `JSON.stringify`
of the empty object is `{}` (written with escapes below) and
`Object.keys(Deno.version).join(', ')` lists the allowed keys. -/
def emptyMsg : String :=
  "version \"\x7b\x7d\" should have at least one of these keys [deno, v8, typescript]"

/-! ## The simple variant

`export function ensureVersion(version, logs = true)` of the first
implementation, together with its helpers `maxMinor`, `maxPatch` and
`range`.  `import.meta.url` of the module is the ambient parameter
`selfUrl`. -/

/-- `new Array(max - min).fill(1).map((_, i) => i + min + 1)`: `new Array`
throws a `RangeError` ("Invalid array length") when `max - min` is
negative; otherwise the helper returns `[min+1, ..., max]`. -/
def jsRange (min max : Nat) : Except JsError (List Nat) :=
  if min ≤ max then .ok ((List.range (max - min)).map (fun i => i + min + 1))
  else .error (.rangeError "Invalid array length")

/-- A synthesized `major.minor.patch` string. -/
def verStr (a b c : Nat) : String :=
  Nat.repr a ++ "." ++ Nat.repr b ++ "." ++ Nat.repr c

/-- `maxMinor(originVersion, requiredVersion)`: is there a satisfying version
with the same major and a minor scanned from current+1 up to 100? -/
def maxMinor (originVersion requiredVersion : String) : Except JsError Bool :=
  match semverMajor originVersion with
  | .error e => .error e
  | .ok originMajor =>
    match semverMinor originVersion with
    | .error e => .error e
    | .ok m =>
      match jsRange m 100 with
      | .error e => .error e
      | .ok originMinors =>
        match maxSatisfying (originMinors.map (fun mm => verStr originMajor mm 0)) requiredVersion with
        | .error e => .error e
        | .ok mx => .ok mx.isSome

/-- `maxPatch(originVersion, requiredVersion)`: is there a satisfying version
with the same major and minor and a patch scanned from current+1 up to
500? -/
def maxPatch (originVersion requiredVersion : String) : Except JsError Bool :=
  match semverMajor originVersion with
  | .error e => .error e
  | .ok originMajor =>
    match semverMinor originVersion with
    | .error e => .error e
    | .ok originMinor =>
      match semverPatch originVersion with
      | .error e => .error e
      | .ok p =>
        match jsRange p 500 with
        | .error e => .error e
        | .ok originPatchs =>
          match maxSatisfying (originPatchs.map (fun pp => verStr originMajor originMinor pp)) requiredVersion with
          | .error e => .error e
          | .ok mx => .ok mx.isSome

/-- Mismatch message of the simple variant:
`${key}@${origin} not match version ${version[key]} required by ${import.meta.url}`. -/
def simpleMismatchMsg (k : Key) (origin rawRequired selfUrl : String) : String :=
  k.name ++ "@" ++ origin ++ " not match version " ++ rawRequired ++ " required by " ++ selfUrl

/-- Minor-advisory line text of the simple variant (the `%c` prefix is the
console style placeholder of the source's `console.warn` call). -/
def simpleWarnMsg (k : Key) (origin rawRequired selfUrl : String) : String :=
  "%c" ++ k.name ++ "@" ++ origin ++ " not match maximum minor " ++ rawRequired ++
    " required by " ++ selfUrl ++ ", " ++ k.name ++ " minor can be upgraded"

/-- Patch-advisory line text of the simple variant. -/
def simpleInfoMsg (k : Key) (origin rawRequired selfUrl : String) : String :=
  "%c" ++ k.name ++ "@" ++ origin ++ " not match maximum patch " ++ rawRequired ++
    " required by " ++ selfUrl ++ ", " ++ k.name ++ " patch can be upgraded"

/-- One iteration of the simple variant's `for _key in Deno.version` loop:
skip if the requirement has no entry; throw `RangeError` on mismatch; then
the advisory checks (note the source evaluates `maxMinor(...)` and, when that
conjunction fails, `maxPatch(...)` *before* the `&& logs` guard, so both
helpers run even when `logs` is false). -/
def simpleKeyStep (origin : String) (rawRequired : Option String) (selfUrl : String)
    (logs : Bool) (k : Key) : Except JsError (List LogLine) :=
  match rawRequired with
  | none => .ok []
  | some required =>
    match satisfies origin required with
    | .error e => .error e
    | .ok sat =>
      if !sat then .error (.rangeError (simpleMismatchMsg k origin required selfUrl))
      else
        match maxMinor origin required with
        | .error e => .error e
        | .ok mm =>
          if mm && logs then .ok [⟨.warn, k, simpleWarnMsg k origin required selfUrl⟩]
          else
            match maxPatch origin required with
            | .error e => .error e
            | .ok mp =>
              if mp && logs then .ok [⟨.info, k, simpleInfoMsg k origin required selfUrl⟩]
              else .ok []

/-- The `for _key in Deno.version` loop: canonical key order, fail-fast on
the first thrown error, accumulating emitted advisory lines. -/
def runLoop (step : Key → Except JsError (List LogLine)) :
    List Key → List LogLine → Outcome
  | [], acc => (.ok (), acc)
  | k :: ks, acc =>
    match step k with
    | .error e => (.error e, acc)
    | .ok ls => runLoop step ks (acc ++ ls)

/-- Body of the simple variant after normalization: the non-empty check and
the per-key loop (the per-key running version is truncated to its first
three dotted segments). -/
def ensureCoreSimple (running : Key → String) (selfUrl : String)
    (entries : ReqEntries) (logs : Bool) : Outcome :=
  if entries.length = 0 then (.error (.typeError emptyMsg), [])
  else
    runLoop
      (fun k => simpleKeyStep (trunc3 (running k)) (lookupEntry entries k) selfUrl logs k)
      canonicalKeys []

/-- The simple variant of `ensureVersion(version, logs = true)`:
`undefined` check, bare-string wrapping as `{deno: version}`, empty-mapping
check, then the per-key loop. -/
def ensureVersionSimple (running : Key → String) (selfUrl : String)
    (version : Requirement) (logs : Bool) : Outcome :=
  match version with
  | .undef => (.error (.typeError undefMsg), [])
  | .str s => ensureCoreSimple running selfUrl [(Key.deno, some s)] logs
  | .map entries => ensureCoreSimple running selfUrl entries logs

/-! ## The catalog-aware variant

`export function ensureVersion(version, logs = true, importer?)` of the
second implementation.  The module-level `denoVersions` constant is parsed
from the fetched release list in `deps.ts` (not under `src/`); it is the
parameter `catalog`.  Only `importer.url` is ever read from the `ImportMeta`
argument, so the importer is embedded as an optional url string. -/

/-- `importer ? ` by ${importer.url}` : ''`. -/
def importerNameOf : Option String → String
  | some url => " by " ++ url
  | none => ""

/-- `maxOriginVersion(requiredVersion)`: the maximum catalog release
satisfying the (already truncated) range, falling back to the range string
itself when no release satisfies it. -/
def maxOriginVersion (catalog : List Triple) (requiredVersion : String) :
    Except JsError String :=
  match maxSatisfying (catalog.map (fun v => verStr v.major v.minor v.patch)) requiredVersion with
  | .error e => .error e
  | .ok (some mx) => .ok mx
  | .ok none => .ok requiredVersion

/-- Mismatch message of the catalog variant:
`${key}@${origin} not match version ${version[key]} required${importerName}`
(note: the *raw* `version[key]`, not the truncated range). -/
def catalogMismatchMsg (k : Key) (origin rawRequired importerName : String) : String :=
  k.name ++ "@" ++ origin ++ " not match version " ++ rawRequired ++ " required" ++ importerName

/-- Minor-advisory line text of the catalog variant (this one interpolates
the truncated `required` and the computed `maxOrigin`). -/
def catalogWarnMsg (k : Key) (origin required importerName maxOrigin : String) : String :=
  "%c" ++ k.name ++ "@" ++ origin ++ " not match maximum minor " ++ required ++
    " required" ++ importerName ++ ", " ++ k.name ++ " minor can be upgraded to " ++ maxOrigin

/-- Patch-advisory line text of the catalog variant. -/
def catalogInfoMsg (k : Key) (origin required importerName maxOrigin : String) : String :=
  "%c" ++ k.name ++ "@" ++ origin ++ " not match maximum patch " ++ required ++
    " required" ++ importerName ++ ", " ++ k.name ++ " patch can be upgraded to " ++ maxOrigin

/-- One iteration of the catalog variant's loop: the required range is
truncated by `version[key]?.split('.').slice(0, 3).join('.')`; after the
`undefined` check, `typescript` and `v8` are skipped by an explicit
`continue` (the source's TODO about deriving their versions from the deno
version); then mismatch check and catalog-based advisory checks. -/
def catalogKeyStep (origin : String) (rawRequired : Option String) (catalog : List Triple)
    (importerName : String) (logs : Bool) (k : Key) : Except JsError (List LogLine) :=
  match rawRequired with
  | none => .ok []
  | some raw =>
    if k == Key.typescript || k == Key.v8 then .ok []
    else
      match satisfies origin (trunc3 raw) with
      | .error e => .error e
      | .ok sat =>
        if !sat then .error (.rangeError (catalogMismatchMsg k origin raw importerName))
        else
          match maxOriginVersion catalog (trunc3 raw) with
          | .error e => .error e
          | .ok maxOrigin =>
            match semverMinor maxOrigin with
            | .error e => .error e
            | .ok mnMax =>
              match semverMinor origin with
              | .error e => .error e
              | .ok mnO =>
                if (mnMax != mnO) && logs then
                  .ok [⟨.warn, k, catalogWarnMsg k origin (trunc3 raw) importerName maxOrigin⟩]
                else
                  match semverPatch maxOrigin with
                  | .error e => .error e
                  | .ok ptMax =>
                    match semverPatch origin with
                    | .error e => .error e
                    | .ok ptO =>
                      if (ptMax != ptO) && logs then
                        .ok [⟨.info, k, catalogInfoMsg k origin (trunc3 raw) importerName maxOrigin⟩]
                      else .ok []

/-- Body of the catalog variant after normalization. -/
def ensureCoreCatalog (running : Key → String) (catalog : List Triple)
    (entries : ReqEntries) (logs : Bool) (importerName : String) : Outcome :=
  if entries.length = 0 then (.error (.typeError emptyMsg), [])
  else
    runLoop
      (fun k => catalogKeyStep (trunc3 (running k)) (lookupEntry entries k) catalog importerName logs k)
      canonicalKeys []

/-- The catalog-aware variant of `ensureVersion(version, logs = true,
importer?)`. -/
def ensureVersionCatalog (running : Key → String) (catalog : List Triple)
    (version : Requirement) (logs : Bool) (importer : Option String) : Outcome :=
  match version with
  | .undef => (.error (.typeError undefMsg), [])
  | .str s => ensureCoreCatalog running catalog [(Key.deno, some s)] logs (importerNameOf importer)
  | .map entries => ensureCoreCatalog running catalog entries logs (importerNameOf importer)

/-! ## Object-threaded variants (for the frame property)

The caller's requirement object is modelled as explicit state threaded
through every property access; the only accesses the source performs on it
are the reads `Object.keys(version)` and `version[key]`, embedded by
`readEntry`, which returns the object unchanged alongside the read value. -/

/-- The read `version[key]`, as a state-passing operation on the caller's
object. -/
def readEntry (st : ReqEntries) (k : Key) : Option String × ReqEntries :=
  (lookupEntry st k, st)

/-- The per-key loop with the caller's object threaded as state. -/
def runLoopObj (step : Key → ReqEntries → Except JsError (List LogLine) × ReqEntries) :
    List Key → List LogLine → ReqEntries → Outcome × ReqEntries
  | [], acc, st => ((.ok (), acc), st)
  | k :: ks, acc, st =>
    match step k st with
    | (.error e, st') => ((.error e, acc), st')
    | (.ok ls, st') => runLoopObj step ks (acc ++ ls) st'

/-- One simple-variant iteration, reading `version[key]` from the threaded
object. -/
def simpleKeyStepObj (running : Key → String) (selfUrl : String) (logs : Bool)
    (k : Key) (st : ReqEntries) : Except JsError (List LogLine) × ReqEntries :=
  match readEntry st k with
  | (raw, st') => (simpleKeyStep (trunc3 (running k)) raw selfUrl logs k, st')

/-- The simple variant on a mapping argument, with the caller's object
threaded as state and returned alongside the outcome. -/
def ensureVersionSimpleObj (running : Key → String) (selfUrl : String)
    (entries : ReqEntries) (logs : Bool) : Outcome × ReqEntries :=
  if entries.length = 0 then ((.error (.typeError emptyMsg), []), entries)
  else runLoopObj (simpleKeyStepObj running selfUrl logs) canonicalKeys [] entries

/-- One catalog-variant iteration, reading `version[key]` from the threaded
object. -/
def catalogKeyStepObj (running : Key → String) (catalog : List Triple)
    (importerName : String) (logs : Bool) (k : Key) (st : ReqEntries) :
    Except JsError (List LogLine) × ReqEntries :=
  match readEntry st k with
  | (raw, st') => (catalogKeyStep (trunc3 (running k)) raw catalog importerName logs k, st')

/-- The catalog variant on a mapping argument, with the caller's object
threaded as state and returned alongside the outcome. -/
def ensureVersionCatalogObj (running : Key → String) (catalog : List Triple)
    (entries : ReqEntries) (logs : Bool) (importer : Option String) : Outcome × ReqEntries :=
  if entries.length = 0 then ((.error (.typeError emptyMsg), []), entries)
  else
    runLoopObj (catalogKeyStepObj running catalog (importerNameOf importer) logs)
      canonicalKeys [] entries

/-! ## Infrastructure lemmas: substring containment -/

theorem isPrefixOf_append_self (l t : List Char) : l.isPrefixOf (l ++ t) = true := by
  induction l with
  | nil => simp [List.isPrefixOf]
  | cons a as ih => simp [List.isPrefixOf, List.append_eq, ih]

theorem isPrefixOf_extend (l : List Char) :
    ∀ t u, l.isPrefixOf t = true → l.isPrefixOf (t ++ u) = true := by
  induction l with
  | nil => intro t u _; simp [List.isPrefixOf]
  | cons a as ih =>
    intro t u h
    cases t with
    | nil => simp [List.isPrefixOf] at h
    | cons b bs =>
      simp only [List.isPrefixOf, Bool.and_eq_true] at h
      simp only [List.cons_append, List.isPrefixOf, Bool.and_eq_true]
      exact ⟨h.1, ih bs u h.2⟩

theorem listContainsSeq_nil_left (l : List Char) : listContainsSeq [] l = true := by
  cases l <;> simp [listContainsSeq, List.isPrefixOf]

theorem strContains_refl (n : String) : strContains n n = true := by
  unfold strContains
  cases h : n.data with
  | nil => simp [listContainsSeq]
  | cons c cs =>
    have h2 := isPrefixOf_append_self (c :: cs) []
    simp only [List.append_nil] at h2
    simp [listContainsSeq, h2]

theorem listContainsSeq_append_right (n l1 l2 : List Char)
    (h : listContainsSeq n l2 = true) : listContainsSeq n (l1 ++ l2) = true := by
  induction l1 with
  | nil => simpa using h
  | cons c cs ih => simp [listContainsSeq, ih]

theorem listContainsSeq_append_left (n l1 l2 : List Char)
    (h : listContainsSeq n l1 = true) : listContainsSeq n (l1 ++ l2) = true := by
  induction l1 with
  | nil =>
    simp only [listContainsSeq] at h
    rw [List.isEmpty_iff] at h
    rw [h]
    exact listContainsSeq_nil_left _
  | cons c cs ih =>
    simp only [listContainsSeq, Bool.or_eq_true] at h
    simp only [List.cons_append, listContainsSeq, Bool.or_eq_true]
    rcases h with h | h
    · exact Or.inl (isPrefixOf_extend _ _ _ h)
    · exact Or.inr (ih h)

theorem strContains_append_right (a b n : String) (h : strContains b n = true) :
    strContains (a ++ b) n = true := by
  unfold strContains at h ⊢
  rw [String.data_append]
  exact listContainsSeq_append_right _ _ _ h

theorem strContains_append_left (a b n : String) (h : strContains a n = true) :
    strContains (a ++ b) n = true := by
  unfold strContains at h ⊢
  rw [String.data_append]
  exact listContainsSeq_append_left _ _ _ h

/-! ## Infrastructure lemmas: error provenance of the semver helpers -/

theorem satisfies_error_typeError {v r : String} {e : JsError}
    (h : satisfies v r = .error e) : ∃ s, e = .typeError s := by
  unfold satisfies at h
  cases hp : parseRange? r with
  | none => simp only [hp] at h; injection h with h'; exact ⟨_, h'.symm⟩
  | some ast => simp only [hp] at h; exact Except.noConfusion h

theorem satisfies_ok_true_parse {v r : String}
    (h : satisfies v r = .ok true) : ∃ t, parseVersion? v = some t := by
  unfold satisfies at h
  cases hp : parseRange? r with
  | none => simp only [hp] at h; exact Except.noConfusion h
  | some ast =>
    simp only [hp] at h
    injection h with h'
    cases hv : parseVersion? v with
    | some t => exact ⟨t, rfl⟩
    | none => rw [hv] at h'; simp at h'

theorem semverMajor_error {v : String} {e : JsError}
    (h : semverMajor v = .error e) : ∃ s, e = .typeError s := by
  unfold semverMajor at h
  cases hp : parseVersion? v with
  | some t => simp only [hp] at h; exact Except.noConfusion h
  | none => simp only [hp] at h; injection h with h'; exact ⟨_, h'.symm⟩

theorem semverMinor_error {v : String} {e : JsError}
    (h : semverMinor v = .error e) : ∃ s, e = .typeError s := by
  unfold semverMinor at h
  cases hp : parseVersion? v with
  | some t => simp only [hp] at h; exact Except.noConfusion h
  | none => simp only [hp] at h; injection h with h'; exact ⟨_, h'.symm⟩

theorem semverPatch_error {v : String} {e : JsError}
    (h : semverPatch v = .error e) : ∃ s, e = .typeError s := by
  unfold semverPatch at h
  cases hp : parseVersion? v with
  | some t => simp only [hp] at h; exact Except.noConfusion h
  | none => simp only [hp] at h; injection h with h'; exact ⟨_, h'.symm⟩

theorem maxSatisfying_error {vs : List String} {r : String} {e : JsError}
    (h : maxSatisfying vs r = .error e) : ∃ s, e = .typeError s := by
  unfold maxSatisfying at h
  cases hp : parseRange? r with
  | none => simp only [hp] at h; injection h with h'; exact ⟨_, h'.symm⟩
  | some ast => simp only [hp] at h; exact Except.noConfusion h

theorem jsRange_error {a b : Nat} {e : JsError}
    (h : jsRange a b = .error e) : e = .rangeError "Invalid array length" := by
  unfold jsRange at h
  by_cases hc : a ≤ b
  · rw [if_pos hc] at h; simp at h
  · rw [if_neg hc] at h; injection h with h'; exact h'.symm

theorem maxMinor_rangeError {o r m : String}
    (h : maxMinor o r = .error (.rangeError m)) : m = "Invalid array length" := by
  unfold maxMinor at h
  cases hmaj : semverMajor o with
  | error e =>
    simp only [hmaj] at h
    injection h with h'
    obtain ⟨s, hs⟩ := semverMajor_error hmaj
    rw [h'] at hs
    cases hs
  | ok originMajor =>
    simp only [hmaj] at h
    cases hmin : semverMinor o with
    | error e =>
      simp only [hmin] at h
      injection h with h'
      obtain ⟨s, hs⟩ := semverMinor_error hmin
      rw [h'] at hs
      cases hs
    | ok mn =>
      simp only [hmin] at h
      cases hr : jsRange mn 100 with
      | error e =>
        simp only [hr] at h
        injection h with h'
        have hs := jsRange_error hr
        rw [h'] at hs
        injection hs with h''
        try exact h''
      | ok minors =>
        simp only [hr] at h
        cases hmx : maxSatisfying (minors.map (fun mm => verStr originMajor mm 0)) r with
        | error e =>
          simp only [hmx] at h
          injection h with h'
          obtain ⟨s, hs⟩ := maxSatisfying_error hmx
          rw [h'] at hs
          cases hs
        | ok mx =>
          simp only [hmx] at h
          exact Except.noConfusion h

theorem maxPatch_rangeError {o r m : String}
    (h : maxPatch o r = .error (.rangeError m)) : m = "Invalid array length" := by
  unfold maxPatch at h
  cases hmaj : semverMajor o with
  | error e =>
    simp only [hmaj] at h
    injection h with h'
    obtain ⟨s, hs⟩ := semverMajor_error hmaj
    rw [h'] at hs
    cases hs
  | ok originMajor =>
    simp only [hmaj] at h
    cases hmin : semverMinor o with
    | error e =>
      simp only [hmin] at h
      injection h with h'
      obtain ⟨s, hs⟩ := semverMinor_error hmin
      rw [h'] at hs
      cases hs
    | ok mn =>
      simp only [hmin] at h
      cases hpa : semverPatch o with
      | error e =>
        simp only [hpa] at h
        injection h with h'
        obtain ⟨s, hs⟩ := semverPatch_error hpa
        rw [h'] at hs
        cases hs
      | ok p =>
        simp only [hpa] at h
        cases hr : jsRange p 500 with
        | error e =>
          simp only [hr] at h
          injection h with h'
          have hs := jsRange_error hr
          rw [h'] at hs
          injection hs with h''
          try exact h''
        | ok patchs =>
          simp only [hr] at h
          cases hmx : maxSatisfying (patchs.map (fun pp => verStr originMajor mn pp)) r with
          | error e =>
            simp only [hmx] at h
            injection h with h'
            obtain ⟨s, hs⟩ := maxSatisfying_error hmx
            rw [h'] at hs
            cases hs
          | ok mx =>
            simp only [hmx] at h
            exact Except.noConfusion h

theorem maxOriginVersion_error {cat : List Triple} {r : String} {e : JsError}
    (h : maxOriginVersion cat r = .error e) : ∃ s, e = .typeError s := by
  unfold maxOriginVersion at h
  cases hmx : maxSatisfying (cat.map (fun v => verStr v.major v.minor v.patch)) r with
  | error e' =>
    simp only [hmx] at h
    injection h with h'
    exact h' ▸ maxSatisfying_error hmx
  | ok mx =>
    simp only [hmx] at h
    cases mx with
    | none => simp at h
    | some v => simp at h

/-! ## Infrastructure lemmas: per-key steps and the loop -/

theorem simpleKeyStep_ok_shape {origin u : String} {raw : Option String}
    {logs : Bool} {k : Key} {ls : List LogLine}
    (h : simpleKeyStep origin raw u logs k = .ok ls) :
    ls = [] ∨ ∃ lv m, ls = [⟨lv, k, m⟩] := by
  unfold simpleKeyStep at h
  cases raw with
  | none => injection h with h'; exact Or.inl h'.symm
  | some required =>
    cases hs : satisfies origin required with
    | error e => simp only [hs] at h; exact Except.noConfusion h
    | ok sat =>
      simp only [hs] at h
      cases sat with
      | false => simp at h
      | true =>
        simp only [Bool.not_true, Bool.false_eq_true, if_false] at h
        cases hmm : maxMinor origin required with
        | error e => simp only [hmm] at h; exact Except.noConfusion h
        | ok mm =>
          simp only [hmm] at h
          cases hml : (mm && logs) with
          | true =>
            simp only [hml, if_true] at h
            injection h with h'
            exact Or.inr ⟨.warn, _, h'.symm⟩
          | false =>
            simp only [hml, Bool.false_eq_true, if_false] at h
            cases hmp : maxPatch origin required with
            | error e => simp only [hmp] at h; exact Except.noConfusion h
            | ok mp =>
              simp only [hmp] at h
              cases hpl : (mp && logs) with
              | true =>
                simp only [hpl, if_true] at h
                injection h with h'
                exact Or.inr ⟨.info, _, h'.symm⟩
              | false =>
                simp only [hpl, Bool.false_eq_true, if_false] at h
                injection h with h'
                exact Or.inl h'.symm

theorem catalogKeyStep_ok_shape {origin imp : String} {raw : Option String}
    {cat : List Triple} {logs : Bool} {k : Key} {ls : List LogLine}
    (h : catalogKeyStep origin raw cat imp logs k = .ok ls) :
    ls = [] ∨ ∃ lv m, ls = [⟨lv, k, m⟩] := by
  unfold catalogKeyStep at h
  cases raw with
  | none => injection h with h'; exact Or.inl h'.symm
  | some raw' =>
    cases hsk : (k == Key.typescript || k == Key.v8) with
    | true =>
      simp only [hsk, if_true] at h
      injection h with h'
      exact Or.inl h'.symm
    | false =>
      simp only [hsk, Bool.false_eq_true, if_false] at h
      cases hs : satisfies origin (trunc3 raw') with
      | error e => simp only [hs] at h; exact Except.noConfusion h
      | ok sat =>
        simp only [hs] at h
        cases sat with
        | false => simp at h
        | true =>
          simp only [Bool.not_true, Bool.false_eq_true, if_false] at h
          cases hmo : maxOriginVersion cat (trunc3 raw') with
          | error e => simp only [hmo] at h; exact Except.noConfusion h
          | ok maxOrigin =>
            simp only [hmo] at h
            cases hm1 : semverMinor maxOrigin with
            | error e => simp only [hm1] at h; exact Except.noConfusion h
            | ok mnMax =>
              simp only [hm1] at h
              cases hm2 : semverMinor origin with
              | error e => simp only [hm2] at h; exact Except.noConfusion h
              | ok mnO =>
                simp only [hm2] at h
                cases hml : ((mnMax != mnO) && logs) with
                | true =>
                  simp only [hml, if_true] at h
                  injection h with h'
                  exact Or.inr ⟨.warn, _, h'.symm⟩
                | false =>
                  simp only [hml, Bool.false_eq_true, if_false] at h
                  cases hp1 : semverPatch maxOrigin with
                  | error e => simp only [hp1] at h; exact Except.noConfusion h
                  | ok ptMax =>
                    simp only [hp1] at h
                    cases hp2 : semverPatch origin with
                    | error e => simp only [hp2] at h; exact Except.noConfusion h
                    | ok ptO =>
                      simp only [hp2] at h
                      cases hpl : ((ptMax != ptO) && logs) with
                      | true =>
                        simp only [hpl, if_true] at h
                        injection h with h'
                        exact Or.inr ⟨.info, _, h'.symm⟩
                      | false =>
                        simp only [hpl, Bool.false_eq_true, if_false] at h
                        injection h with h'
                        exact Or.inl h'.symm

theorem simpleKeyStep_rangeError {origin u : String} {raw : Option String}
    {logs : Bool} {k : Key} {m : String}
    (h : simpleKeyStep origin raw u logs k = .error (.rangeError m)) :
    m = "Invalid array length" ∨
      ∃ required, raw = some required ∧ m = simpleMismatchMsg k origin required u := by
  unfold simpleKeyStep at h
  cases raw with
  | none => exact Except.noConfusion h
  | some required =>
    cases hs : satisfies origin required with
    | error e =>
      simp only [hs] at h
      injection h with h'
      obtain ⟨s, hts⟩ := satisfies_error_typeError hs
      rw [hts] at h'
      cases h'
    | ok sat =>
      simp only [hs] at h
      cases sat with
      | false =>
        simp only [Bool.not_false, if_true] at h
        injection h with h'
        injection h' with h''
        exact Or.inr ⟨required, rfl, h''.symm⟩
      | true =>
        simp only [Bool.not_true, Bool.false_eq_true, if_false] at h
        cases hmm : maxMinor origin required with
        | error e =>
          simp only [hmm] at h
          injection h with h'
          rw [h'] at hmm
          exact Or.inl (maxMinor_rangeError hmm)
        | ok mm =>
          simp only [hmm] at h
          cases hml : (mm && logs) with
          | true => simp only [hml, if_true] at h; exact Except.noConfusion h
          | false =>
            simp only [hml, Bool.false_eq_true, if_false] at h
            cases hmp : maxPatch origin required with
            | error e =>
              simp only [hmp] at h
              injection h with h'
              rw [h'] at hmp
              exact Or.inl (maxPatch_rangeError hmp)
            | ok mp =>
              simp only [hmp] at h
              cases hpl : (mp && logs) with
              | true => simp only [hpl, if_true] at h; exact Except.noConfusion h
              | false =>
                simp only [hpl, Bool.false_eq_true, if_false] at h
                exact Except.noConfusion h

theorem catalogKeyStep_rangeError {origin imp : String} {raw : Option String}
    {cat : List Triple} {logs : Bool} {k : Key} {m : String}
    (h : catalogKeyStep origin raw cat imp logs k = .error (.rangeError m)) :
    ∃ raw', raw = some raw' ∧ m = catalogMismatchMsg k origin raw' imp := by
  unfold catalogKeyStep at h
  cases raw with
  | none => exact Except.noConfusion h
  | some raw' =>
    cases hsk : (k == Key.typescript || k == Key.v8) with
    | true => simp only [hsk, if_true] at h; exact Except.noConfusion h
    | false =>
      simp only [hsk, Bool.false_eq_true, if_false] at h
      cases hs : satisfies origin (trunc3 raw') with
      | error e =>
        simp only [hs] at h
        injection h with h'
        obtain ⟨s, hts⟩ := satisfies_error_typeError hs
        rw [hts] at h'
        cases h'
      | ok sat =>
        simp only [hs] at h
        cases sat with
        | false =>
          simp only [Bool.not_false, if_true] at h
          injection h with h'
          injection h' with h''
          exact ⟨raw', rfl, h''.symm⟩
        | true =>
          simp only [Bool.not_true, Bool.false_eq_true, if_false] at h
          cases hmo : maxOriginVersion cat (trunc3 raw') with
          | error e =>
            simp only [hmo] at h
            injection h with h'
            obtain ⟨s, hts⟩ := maxOriginVersion_error hmo
            rw [hts] at h'
            cases h'
          | ok maxOrigin =>
            simp only [hmo] at h
            cases hm1 : semverMinor maxOrigin with
            | error e =>
              simp only [hm1] at h
              injection h with h'
              obtain ⟨s, hts⟩ := semverMinor_error hm1
              rw [hts] at h'
              cases h'
            | ok mnMax =>
              simp only [hm1] at h
              cases hm2 : semverMinor origin with
              | error e =>
                simp only [hm2] at h
                injection h with h'
                obtain ⟨s, hts⟩ := semverMinor_error hm2
                rw [hts] at h'
                cases h'
              | ok mnO =>
                simp only [hm2] at h
                cases hml : ((mnMax != mnO) && logs) with
                | true => simp only [hml, if_true] at h; exact Except.noConfusion h
                | false =>
                  simp only [hml, Bool.false_eq_true, if_false] at h
                  cases hp1 : semverPatch maxOrigin with
                  | error e =>
                    simp only [hp1] at h
                    injection h with h'
                    obtain ⟨s, hts⟩ := semverPatch_error hp1
                    rw [hts] at h'
                    cases h'
                  | ok ptMax =>
                    simp only [hp1] at h
                    cases hp2 : semverPatch origin with
                    | error e =>
                      simp only [hp2] at h
                      injection h with h'
                      obtain ⟨s, hts⟩ := semverPatch_error hp2
                      rw [hts] at h'
                      cases h'
                    | ok ptO =>
                      simp only [hp2] at h
                      cases hpl : ((ptMax != ptO) && logs) with
                      | true => simp only [hpl, if_true] at h; exact Except.noConfusion h
                      | false =>
                        simp only [hpl, Bool.false_eq_true, if_false] at h
                        exact Except.noConfusion h

theorem runLoop_congr {step step' : Key → Except JsError (List LogLine)}
    (h : ∀ k, step k = step' k) :
    ∀ ks acc, runLoop step ks acc = runLoop step' ks acc := by
  intro ks
  induction ks with
  | nil => intro acc; rfl
  | cons k ks ih =>
    intro acc
    unfold runLoop
    rw [h k]
    cases step' k with
    | error e => rfl
    | ok ls => exact ih (acc ++ ls)

theorem runLoop_error_mem {step : Key → Except JsError (List LogLine)} :
    ∀ ks acc e l, runLoop step ks acc = (.error e, l) →
      ∃ k, k ∈ ks ∧ step k = .error e := by
  intro ks
  induction ks with
  | nil => intro acc e l h; unfold runLoop at h; simp at h
  | cons k ks ih =>
    intro acc e l h
    unfold runLoop at h
    cases hs : step k with
    | error e' =>
      simp only [hs] at h
      have he : e' = e := by
        injection h with h1 h2
        injection h1 with h1'
        try exact h1'
      exact ⟨k, List.mem_cons_self k ks, by rw [hs, he]⟩
    | ok ls =>
      simp only [hs] at h
      obtain ⟨k', hk, hsk⟩ := ih (acc ++ ls) e l h
      exact ⟨k', List.mem_cons_of_mem _ hk, hsk⟩

theorem runLoop_filter_len {step : Key → Except JsError (List LogLine)}
    (p : LogLine → Bool) (b : Key → Nat)
    (hstep : ∀ k ls, step k = .ok ls → (ls.filter p).length ≤ b k) :
    ∀ ks acc, ((runLoop step ks acc).2.filter p).length ≤
      (acc.filter p).length + (ks.map b).sum := by
  intro ks
  induction ks with
  | nil => intro acc; simp [runLoop]
  | cons k ks ih =>
    intro acc
    unfold runLoop
    cases hs : step k with
    | error e =>
      simp only [List.map_cons, List.sum_cons]
      omega
    | ok ls =>
      simp only
      have h1 := ih (acc ++ ls)
      have h2 := hstep k ls hs
      simp only [List.filter_append, List.length_append] at h1
      simp only [List.map_cons, List.sum_cons]
      omega

theorem runLoopObj_frame {step : Key → ReqEntries → Except JsError (List LogLine) × ReqEntries}
    {stepP : Key → Except JsError (List LogLine)} {st0 : ReqEntries}
    (h : ∀ k, step k st0 = (stepP k, st0)) :
    ∀ ks acc, runLoopObj step ks acc st0 = ((runLoop stepP ks acc), st0) := by
  intro ks
  induction ks with
  | nil => intro acc; rfl
  | cons k ks ih =>
    intro acc
    unfold runLoopObj runLoop
    rw [h k]
    cases stepP k with
    | error e => rfl
    | ok ls => exact ih (acc ++ ls)

/-! ## Concrete inputs used by witnesses and counterexamples

`runningStd` is the running version set the source's doc comments use
(`Deno.version = {deno: '1.9.4', typescript: '4.5.2', v8: '9.9.115.7'}`);
the others vary one component. -/

set_option maxRecDepth 16384

def runningStd : Key → String
  | .deno => "1.9.4"
  | .v8 => "9.9.115.7"
  | .typescript => "4.5.2"

def runningMinor101 : Key → String
  | .deno => "1.101.0"
  | .v8 => "9.9.115.7"
  | .typescript => "4.5.2"

def runningPatch501 : Key → String
  | .deno => "1.9.501"
  | .v8 => "9.9.115.7"
  | .typescript => "4.5.2"

def runningTrunc41 : Key → String
  | .deno => "1.9.4.1"
  | .v8 => "9.9.115.7"
  | .typescript => "4.5.2"

/-- A small release catalog containing exactly the running deno release. -/
def catalogSmall : List Triple := [⟨1, 9, 4⟩]

/-! ## Congruence helpers used by the truncation claim -/

theorem ensureCoreSimple_trunc_congr (running running' : Key → String) (selfUrl : String)
    (h : ∀ k, trunc3 (running k) = trunc3 (running' k)) (entries : ReqEntries) (logs : Bool) :
    ensureCoreSimple running selfUrl entries logs =
      ensureCoreSimple running' selfUrl entries logs := by
  unfold ensureCoreSimple
  by_cases he : entries.length = 0
  · rw [if_pos he, if_pos he]
  · rw [if_neg he, if_neg he]
    exact runLoop_congr (fun k => by rw [h k]) canonicalKeys []

theorem ensureCoreCatalog_trunc_congr (running running' : Key → String) (catalog : List Triple)
    (h : ∀ k, trunc3 (running k) = trunc3 (running' k)) (entries : ReqEntries) (logs : Bool)
    (importerName : String) :
    ensureCoreCatalog running catalog entries logs importerName =
      ensureCoreCatalog running' catalog entries logs importerName := by
  unfold ensureCoreCatalog
  by_cases he : entries.length = 0
  · rw [if_pos he, if_pos he]
  · rw [if_neg he, if_neg he]
    exact runLoop_congr (fun k => by rw [h k]) canonicalKeys []

/-! ## Advisory-count helpers used by the at-most-one-advisory claim -/

theorem ensureCoreSimple_key_count (running : Key → String) (selfUrl : String)
    (entries : ReqEntries) (logs : Bool) (k0 : Key) :
    (((ensureCoreSimple running selfUrl entries logs).2.filter
      (fun l => l.key == k0)).length) ≤ 1 := by
  unfold ensureCoreSimple
  by_cases he : entries.length = 0
  · rw [if_pos he]; simp
  · rw [if_neg he]
    have hstep : ∀ k ls,
        simpleKeyStep (trunc3 (running k)) (lookupEntry entries k) selfUrl logs k = .ok ls →
        ((ls.filter (fun l => l.key == k0)).length) ≤ (if k == k0 then 1 else 0) := by
      intro k ls hok
      rcases simpleKeyStep_ok_shape hok with h0 | ⟨lv, m, h1⟩
      · subst h0; simp
      · subst h1
        by_cases hk : k = k0
        · subst hk; simp
        · have hkb : (k == k0) = false := by simp [hk]
          simp [hkb]
    have hbound := runLoop_filter_len (fun l => l.key == k0)
      (fun k => if k == k0 then 1 else 0) hstep canonicalKeys []
    have hsum : ((canonicalKeys.map (fun k => if k == k0 then 1 else 0)).sum) ≤ 1 := by
      cases k0 <;> decide
    simp only [List.filter_nil, List.length_nil, Nat.zero_add] at hbound
    omega

theorem ensureCoreCatalog_key_count (running : Key → String) (catalog : List Triple)
    (entries : ReqEntries) (logs : Bool) (importerName : String) (k0 : Key) :
    (((ensureCoreCatalog running catalog entries logs importerName).2.filter
      (fun l => l.key == k0)).length) ≤ 1 := by
  unfold ensureCoreCatalog
  by_cases he : entries.length = 0
  · rw [if_pos he]; simp
  · rw [if_neg he]
    have hstep : ∀ k ls,
        catalogKeyStep (trunc3 (running k)) (lookupEntry entries k) catalog importerName logs k
          = .ok ls →
        ((ls.filter (fun l => l.key == k0)).length) ≤ (if k == k0 then 1 else 0) := by
      intro k ls hok
      rcases catalogKeyStep_ok_shape hok with h0 | ⟨lv, m, h1⟩
      · subst h0; simp
      · subst h1
        by_cases hk : k = k0
        · subst hk; simp
        · have hkb : (k == k0) = false := by simp [hk]
          simp [hkb]
    have hbound := runLoop_filter_len (fun l => l.key == k0)
      (fun k => if k == k0 then 1 else 0) hstep canonicalKeys []
    have hsum : ((canonicalKeys.map (fun k => if k == k0 then 1 else 0)).sum) ≤ 1 := by
      cases k0 <;> decide
    simp only [List.filter_nil, List.length_nil, Nat.zero_add] at hbound
    omega

/-! ## Claim C1 -/

/-- C1: the claim says that whenever the running version violates the range
for at least one present key, `ensureVersion` throws a VersionMismatch naming
the first such key in canonical order.  The catalog-aware variant refutes
this: its loop `continue`s past `typescript` and `v8` *before* the
satisfaction check, so a violated `typescript` requirement (here `3.2.1`
against running `4.5.2`, the very example the function's own doc comment says
throws) is silently ignored and the call returns normally.  This theorem
evaluates the code at that failing input: the typescript requirement is
violated, yet the invocation returns `ok` with no logs. -/
theorem claim_C1_divergence_eval :
    satisfies (trunc3 (runningStd Key.typescript)) (trunc3 "3.2.1") = .ok false ∧
    ensureVersionCatalog runningStd catalogSmall
      (.map [(Key.deno, some ">=1.8.0"), (Key.typescript, some "3.2.1")]) true none =
      (.ok (), []) := by
  constructor
  · decide
  · decide

/-! ## Claim C2 -/

/-- C2: the claim says that a well-formed requirement whose ranges are
satisfied by the running versions always returns normally.  The simple
variant refutes it: with running deno `1.101.0` and the satisfied requirement
`>=1.0.0`, the advisory helper `maxMinor` calls `range(101, 100)`, i.e.
`new Array(-1)`, which throws `RangeError: Invalid array length` — and it
does so whether or not advisory logging is enabled, because `maxMinor(...)`
is evaluated before the `&& logs` guard.  This theorem evaluates the code at
that failing input. -/
theorem claim_C2_divergence_eval :
    satisfies (trunc3 (runningMinor101 Key.deno)) ">=1.0.0" = .ok true ∧
    ensureVersionSimple runningMinor101 "file:///mod.ts" (.str ">=1.0.0") true =
      (.error (.rangeError "Invalid array length"), []) ∧
    ensureVersionSimple runningMinor101 "file:///mod.ts" (.str ">=1.0.0") false =
      (.error (.rangeError "Invalid array length"), []) := by
  refine ⟨by decide, by decide, by decide⟩

/-! ## Claim C3 -/

/-- C3: calling `ensureVersion` with an `undefined` requirement, and with an
empty mapping, throws a `TypeError`-class MalformedRequirement in both
variants, and the empty-mapping message names the allowed component keys
(`deno, v8, typescript`). -/
theorem claim_C3_theorem :
    ∀ (running : Key → String) (selfUrl : String) (catalog : List Triple)
      (logs : Bool) (importer : Option String),
      ensureVersionSimple running selfUrl .undef logs = (.error (.typeError undefMsg), []) ∧
      ensureVersionSimple running selfUrl (.map []) logs = (.error (.typeError emptyMsg), []) ∧
      ensureVersionCatalog running catalog .undef logs importer =
        (.error (.typeError undefMsg), []) ∧
      ensureVersionCatalog running catalog (.map []) logs importer =
        (.error (.typeError emptyMsg), []) ∧
      strContains emptyMsg "deno, v8, typescript" = true :=
  fun _ _ _ _ _ => ⟨rfl, rfl, rfl, rfl, by decide⟩

/-! ## Claim C4 -/

/-- C4 counterexample: the claim says *both* the running version string *and*
the required range's version tokens are truncated to three components before
comparison, for every requirement and key.  In the simple variant the
required range is not truncated at all: the requirement `"1.9.4.1"` is passed
verbatim to the range parser (malformed, four components), so the invocation
fails, while the same call with the truncated range `trunc3 "1.9.4.1" =
"1.9.4"` passes — the two runs differ although the claimed truncation would
make them identical. -/
theorem claim_C4_counterexample :
    ensureVersionSimple runningStd "file:///mod.ts" (.str "1.9.4.1") true =
      (.error (.typeError "Invalid range: 1.9.4.1"), []) ∧
    ensureVersionSimple runningStd "file:///mod.ts" (.str (trunc3 "1.9.4.1")) true =
      (.ok (), []) ∧
    trunc3 "1.9.4.1" = "1.9.4" := by
  refine ⟨by decide, by decide, by decide⟩

/-- C4 (amended): before any comparison the *running* version string is
truncated to at most its first three dotted components, in both variants,
for every requirement and every component key — two running sets with equal
truncations are observationally indistinguishable (so a running version
reported as `1.9.4.1` is compared exactly as `1.9.4`).  The required range is
truncated only in the catalog-aware variant (and there as the whole string's
first three dot-separated segments), not in the simple variant, as the
counterexample shows. -/
theorem claim_C4_theorem :
    ∀ (running running' : Key → String) (selfUrl : String) (catalog : List Triple)
      (version : Requirement) (logs : Bool) (importer : Option String),
      (∀ k, trunc3 (running k) = trunc3 (running' k)) →
      ensureVersionSimple running selfUrl version logs =
        ensureVersionSimple running' selfUrl version logs ∧
      ensureVersionCatalog running catalog version logs importer =
        ensureVersionCatalog running' catalog version logs importer := by
  intro running running' selfUrl catalog version logs importer h
  constructor
  · cases version with
    | undef => rfl
    | str s => exact ensureCoreSimple_trunc_congr running running' selfUrl h _ _
    | map entries => exact ensureCoreSimple_trunc_congr running running' selfUrl h _ _
  · cases version with
    | undef => rfl
    | str s => exact ensureCoreCatalog_trunc_congr running running' catalog h _ _ _
    | map entries => exact ensureCoreCatalog_trunc_congr running running' catalog h _ _ _

/-- C4 witness: a running deno version `1.9.4.1` behaves exactly like
`1.9.4` on a concrete requirement, in both variants. -/
theorem claim_C4_witness :
    (∀ k, trunc3 (runningTrunc41 k) = trunc3 (runningStd k)) ∧
    ensureVersionSimple runningTrunc41 "file:///mod.ts" (.str ">=1.8.0") true =
      ensureVersionSimple runningStd "file:///mod.ts" (.str ">=1.8.0") true ∧
    ensureVersionCatalog runningTrunc41 catalogSmall (.str ">=1.8.0") true none =
      ensureVersionCatalog runningStd catalogSmall (.str ">=1.8.0") true none := by
  have h : ∀ k, trunc3 (runningTrunc41 k) = trunc3 (runningStd k) := by
    intro k; cases k <;> decide
  exact ⟨h,
    (claim_C4_theorem runningTrunc41 runningStd "file:///mod.ts" catalogSmall
      (.str ">=1.8.0") true none h).1,
    (claim_C4_theorem runningTrunc41 runningStd "file:///mod.ts" catalogSmall
      (.str ">=1.8.0") true none h).2⟩

/-! ## Claim C5 -/

/-- C5: the claim says the advisory-logging flag never changes whether the
call returns or throws.  The simple variant refutes it: with running deno
`1.9.501` and requirement `>=1.8.0`, the `logs = true` run finds a minor
upgrade, logs the warning and `continue`s, returning normally — but the
`logs = false` run falls through the (short-circuited) warn branch into
`maxPatch`, whose `range(501, 500)` is `new Array(-1)` and throws
`RangeError: Invalid array length`.  This theorem evaluates both runs of the
code at that failing input, exhibiting the two-run divergence. -/
theorem claim_C5_divergence_eval :
    ensureVersionSimple runningPatch501 "file:///mod.ts" (.str ">=1.8.0") true =
      (.ok (), [⟨.warn, Key.deno,
        simpleWarnMsg Key.deno "1.9.501" ">=1.8.0" "file:///mod.ts"⟩]) ∧
    ensureVersionSimple runningPatch501 "file:///mod.ts" (.str ">=1.8.0") false =
      (.error (.rangeError "Invalid array length"), []) := by
  refine ⟨by decide, by decide⟩

/-! ## Claim C6 -/

/-- C6: calling `ensureVersion` with a bare range string `s` is equivalent,
in every observable (result and emitted advisories), to calling it with the
mapping `{deno: s}`, for both variants: a bare string is normalized by
wrapping it under the primary component key. -/
theorem claim_C6_theorem :
    ∀ (running : Key → String) (selfUrl : String) (catalog : List Triple)
      (s : String) (logs : Bool) (importer : Option String),
      ensureVersionSimple running selfUrl (.str s) logs =
        ensureVersionSimple running selfUrl (.map [(Key.deno, some s)]) logs ∧
      ensureVersionCatalog running catalog (.str s) logs importer =
        ensureVersionCatalog running catalog (.map [(Key.deno, some s)]) logs importer :=
  fun _ _ _ _ _ _ => ⟨rfl, rfl⟩

/-! ## Claim C7 -/

/-- C7: in any single invocation, at most one advisory line is emitted per
component key, in both variants — in particular, when the minor-upgrade
advisory is emitted for a key (the branch that `continue`s), the
patch-upgrade advisory is never also emitted for that same key. -/
theorem claim_C7_theorem :
    ∀ (running : Key → String) (selfUrl : String) (catalog : List Triple)
      (version : Requirement) (logs : Bool) (importer : Option String) (k0 : Key),
      (((ensureVersionSimple running selfUrl version logs).2.filter
        (fun l => l.key == k0)).length) ≤ 1 ∧
      (((ensureVersionCatalog running catalog version logs importer).2.filter
        (fun l => l.key == k0)).length) ≤ 1 := by
  intro running selfUrl catalog version logs importer k0
  constructor
  · cases version with
    | undef => simp [ensureVersionSimple]
    | str s => exact ensureCoreSimple_key_count running selfUrl _ logs k0
    | map entries => exact ensureCoreSimple_key_count running selfUrl _ logs k0
  · cases version with
    | undef => simp [ensureVersionCatalog]
    | str s => exact ensureCoreCatalog_key_count running catalog _ logs _ k0
    | map entries => exact ensureCoreCatalog_key_count running catalog _ logs _ k0

/-! ## Claim C8 -/

/-- C8 counterexample: the claim says every VersionMismatch message includes
the running version.  With running v8 `9.9.115.7` (four reported segments)
and the violated requirement `9.9.116`, the thrown message contains only the
truncated `9.9.115`; the actual running version string `9.9.115.7` does not
occur in it. -/
theorem claim_C8_counterexample :
    ensureVersionSimple runningStd "file:///mod.ts"
      (.map [(Key.v8, some "9.9.116")]) true =
      (.error (.rangeError
        "v8@9.9.115 not match version 9.9.116 required by file:///mod.ts"), []) ∧
    strContains "v8@9.9.115 not match version 9.9.116 required by file:///mod.ts"
      "9.9.115.7" = false := by
  refine ⟨by decide, by decide⟩

/-- C8 (amended): every VersionMismatch error thrown on a mapping argument
carries a message that includes the component key, the running version *as
truncated to three dotted components*, and the raw required range; the
catalog variant's message moreover includes the caller context (importer
url) when one was supplied, and the simple variant's message includes the
module url.  (A `RangeError` whose message is `Invalid array length` is the
advisory helpers' accidental array error, not a VersionMismatch.) -/
theorem claim_C8_theorem :
    (∀ (running : Key → String) (selfUrl : String) (entries : ReqEntries)
        (logs : Bool) (m : String),
      (ensureVersionSimple running selfUrl (.map entries) logs).1 =
        .error (.rangeError m) →
      m = "Invalid array length" ∨
        ∃ k required, k ∈ canonicalKeys ∧ lookupEntry entries k = some required ∧
          m = simpleMismatchMsg k (trunc3 (running k)) required selfUrl ∧
          strContains m (Key.name k) = true ∧
          strContains m (trunc3 (running k)) = true ∧
          strContains m required = true ∧
          strContains m selfUrl = true) ∧
    (∀ (running : Key → String) (catalog : List Triple) (entries : ReqEntries)
        (logs : Bool) (importer : Option String) (m : String),
      (ensureVersionCatalog running catalog (.map entries) logs importer).1 =
        .error (.rangeError m) →
      ∃ k raw, k ∈ canonicalKeys ∧ lookupEntry entries k = some raw ∧
        m = catalogMismatchMsg k (trunc3 (running k)) raw (importerNameOf importer) ∧
        strContains m (Key.name k) = true ∧
        strContains m (trunc3 (running k)) = true ∧
        strContains m raw = true ∧
        (∀ url, importer = some url → strContains m url = true)) := by
  constructor
  · intro running selfUrl entries logs m h
    have hcore : (ensureCoreSimple running selfUrl entries logs).1 =
        .error (.rangeError m) := h
    unfold ensureCoreSimple at hcore
    by_cases he : entries.length = 0
    · rw [if_pos he] at hcore
      injection hcore with h'
      cases h'
    · rw [if_neg he] at hcore
      have hpair : runLoop
          (fun k => simpleKeyStep (trunc3 (running k)) (lookupEntry entries k) selfUrl logs k)
          canonicalKeys [] =
          (.error (.rangeError m),
            (runLoop
              (fun k => simpleKeyStep (trunc3 (running k)) (lookupEntry entries k) selfUrl logs k)
              canonicalKeys []).2) := by
        rw [← hcore]
      obtain ⟨k, hk, hsk⟩ := runLoop_error_mem canonicalKeys [] _ _ hpair
      rcases simpleKeyStep_rangeError hsk with h0 | ⟨required, hreq, hm⟩
      · exact Or.inl h0
      · right
        refine ⟨k, required, hk, hreq, hm, ?_, ?_, ?_, ?_⟩
        · subst hm
          unfold simpleMismatchMsg
          apply strContains_append_left
          apply strContains_append_left
          apply strContains_append_left
          apply strContains_append_left
          apply strContains_append_left
          apply strContains_append_left
          exact strContains_refl _
        · subst hm
          unfold simpleMismatchMsg
          apply strContains_append_left
          apply strContains_append_left
          apply strContains_append_left
          apply strContains_append_left
          apply strContains_append_right
          exact strContains_refl _
        · subst hm
          unfold simpleMismatchMsg
          apply strContains_append_left
          apply strContains_append_left
          apply strContains_append_right
          exact strContains_refl _
        · subst hm
          unfold simpleMismatchMsg
          apply strContains_append_right
          exact strContains_refl _
  · intro running catalog entries logs importer m h
    have hcore : (ensureCoreCatalog running catalog entries logs (importerNameOf importer)).1 =
        .error (.rangeError m) := h
    unfold ensureCoreCatalog at hcore
    by_cases he : entries.length = 0
    · rw [if_pos he] at hcore
      injection hcore with h'
      cases h'
    · rw [if_neg he] at hcore
      have hpair : runLoop
          (fun k => catalogKeyStep (trunc3 (running k)) (lookupEntry entries k) catalog
            (importerNameOf importer) logs k)
          canonicalKeys [] =
          (.error (.rangeError m),
            (runLoop
              (fun k => catalogKeyStep (trunc3 (running k)) (lookupEntry entries k) catalog
                (importerNameOf importer) logs k)
              canonicalKeys []).2) := by
        rw [← hcore]
      obtain ⟨k, hk, hsk⟩ := runLoop_error_mem canonicalKeys [] _ _ hpair
      obtain ⟨raw, hreq, hm⟩ := catalogKeyStep_rangeError hsk
      refine ⟨k, raw, hk, hreq, hm, ?_, ?_, ?_, ?_⟩
      · subst hm
        unfold catalogMismatchMsg
        apply strContains_append_left
        apply strContains_append_left
        apply strContains_append_left
        apply strContains_append_left
        apply strContains_append_left
        apply strContains_append_left
        exact strContains_refl _
      · subst hm
        unfold catalogMismatchMsg
        apply strContains_append_left
        apply strContains_append_left
        apply strContains_append_left
        apply strContains_append_left
        apply strContains_append_right
        exact strContains_refl _
      · subst hm
        unfold catalogMismatchMsg
        apply strContains_append_left
        apply strContains_append_left
        apply strContains_append_right
        exact strContains_refl _
      · intro url hurl
        subst hurl
        subst hm
        unfold catalogMismatchMsg
        apply strContains_append_right
        show strContains (" by " ++ url) url = true
        apply strContains_append_right
        exact strContains_refl _

/-- C8 witness: the amended theorem applied at a concrete mismatching
invocation (running v8 `9.9.115.7`, requirement `{v8: "9.9.116"}`). -/
theorem claim_C8_witness :
    ("v8@9.9.115 not match version 9.9.116 required by file:///mod.ts"
        = "Invalid array length") ∨
      ∃ k required, k ∈ canonicalKeys ∧
        lookupEntry [(Key.v8, some "9.9.116")] k = some required ∧
        "v8@9.9.115 not match version 9.9.116 required by file:///mod.ts" =
          simpleMismatchMsg k (trunc3 (runningStd k)) required "file:///mod.ts" ∧
        strContains "v8@9.9.115 not match version 9.9.116 required by file:///mod.ts"
          (Key.name k) = true ∧
        strContains "v8@9.9.115 not match version 9.9.116 required by file:///mod.ts"
          (trunc3 (runningStd k)) = true ∧
        strContains "v8@9.9.115 not match version 9.9.116 required by file:///mod.ts"
          required = true ∧
        strContains "v8@9.9.115 not match version 9.9.116 required by file:///mod.ts"
          "file:///mod.ts" = true :=
  claim_C8_theorem.1 runningStd "file:///mod.ts" [(Key.v8, some "9.9.116")] true
    "v8@9.9.115 not match version 9.9.116 required by file:///mod.ts" (by decide)

/-! ## Claim C9 -/

/-- C9: in the simple variant the advisory helpers are total only within the
scan bounds: `range(min, max)` builds an array of length `max - min`, so when
the running deno version satisfies the requirement but its minor exceeds 100,
`maxMinor`'s `range(minor, 100)` throws the negative-array-length
`RangeError`; and when the patch helper is reached (the warn branch not
taken, e.g. because `logs` is false) with a patch exceeding 500,
`maxPatch`'s `range(patch, 500)` throws it likewise — in both cases even
though the requirement is satisfied, and regardless of the `logs` flag. -/
theorem claim_C9_theorem :
    (∀ (running : Key → String) (selfUrl : String) (r : String) (logs : Bool) (n : Nat),
      satisfies (trunc3 (running Key.deno)) r = .ok true →
      semverMinor (trunc3 (running Key.deno)) = .ok n →
      100 < n →
      ensureVersionSimple running selfUrl (.str r) logs =
        (.error (.rangeError "Invalid array length"), [])) ∧
    (∀ (running : Key → String) (selfUrl : String) (r : String) (logs : Bool)
        (mm : Bool) (p : Nat),
      satisfies (trunc3 (running Key.deno)) r = .ok true →
      maxMinor (trunc3 (running Key.deno)) r = .ok mm →
      (mm && logs) = false →
      semverPatch (trunc3 (running Key.deno)) = .ok p →
      500 < p →
      ensureVersionSimple running selfUrl (.str r) logs =
        (.error (.rangeError "Invalid array length"), [])) := by
  constructor
  · intro running selfUrl r logs n hsat hmin hgt
    obtain ⟨t, ht⟩ := satisfies_ok_true_parse hsat
    have hn : n = t.minor := by
      unfold semverMinor at hmin
      simp only [ht] at hmin
      injection hmin with h'
      exact h'.symm
    have hmaj : semverMajor (trunc3 (running Key.deno)) = .ok t.major := by
      unfold semverMajor; rw [ht]
    have hmin2 : semverMinor (trunc3 (running Key.deno)) = .ok t.minor := by
      unfold semverMinor; rw [ht]
    have hjr : jsRange t.minor 100 = .error (.rangeError "Invalid array length") := by
      unfold jsRange
      rw [if_neg]
      omega
    have hmm : maxMinor (trunc3 (running Key.deno)) r =
        .error (.rangeError "Invalid array length") := by
      unfold maxMinor
      simp only [hmaj, hmin2, hjr]
    have hlk : lookupEntry [(Key.deno, some r)] Key.deno = some r := rfl
    have hstep : simpleKeyStep (trunc3 (running Key.deno))
        (lookupEntry [(Key.deno, some r)] Key.deno) selfUrl logs Key.deno =
        .error (.rangeError "Invalid array length") := by
      rw [hlk]
      unfold simpleKeyStep
      simp only [hsat, Bool.not_true, Bool.false_eq_true, if_false, hmm]
    show ensureCoreSimple running selfUrl [(Key.deno, some r)] logs = _
    unfold ensureCoreSimple
    rw [if_neg (by simp)]
    simp only [canonicalKeys, runLoop, hstep]
  · intro running selfUrl r logs mm p hsat hmm hml hpat hgt
    obtain ⟨t, ht⟩ := satisfies_ok_true_parse hsat
    have hp : p = t.patch := by
      unfold semverPatch at hpat
      simp only [ht] at hpat
      injection hpat with h'
      exact h'.symm
    have hmaj : semverMajor (trunc3 (running Key.deno)) = .ok t.major := by
      unfold semverMajor; rw [ht]
    have hmin2 : semverMinor (trunc3 (running Key.deno)) = .ok t.minor := by
      unfold semverMinor; rw [ht]
    have hpat2 : semverPatch (trunc3 (running Key.deno)) = .ok t.patch := by
      unfold semverPatch; rw [ht]
    have hjr : jsRange t.patch 500 = .error (.rangeError "Invalid array length") := by
      unfold jsRange
      rw [if_neg]
      omega
    have hmp : maxPatch (trunc3 (running Key.deno)) r =
        .error (.rangeError "Invalid array length") := by
      unfold maxPatch
      simp only [hmaj, hmin2, hpat2, hjr]
    have hlk : lookupEntry [(Key.deno, some r)] Key.deno = some r := rfl
    have hstep : simpleKeyStep (trunc3 (running Key.deno))
        (lookupEntry [(Key.deno, some r)] Key.deno) selfUrl logs Key.deno =
        .error (.rangeError "Invalid array length") := by
      rw [hlk]
      unfold simpleKeyStep
      simp only [hsat, Bool.not_true, Bool.false_eq_true, if_false, hmm, hml, hmp]
    show ensureCoreSimple running selfUrl [(Key.deno, some r)] logs = _
    unfold ensureCoreSimple
    rw [if_neg (by simp)]
    simp only [canonicalKeys, runLoop, hstep]

/-- C9 witness: the minor-overflow case at running deno `1.101.0` with the
satisfied requirement `>=1.0.0`, and the patch-overflow case at running deno
`1.9.501` with the satisfied requirement `>=1.8.0` and advisory logging
disabled. -/
theorem claim_C9_witness :
    ensureVersionSimple runningMinor101 "file:///mod.ts" (.str ">=1.0.0") false =
      (.error (.rangeError "Invalid array length"), []) ∧
    ensureVersionSimple runningPatch501 "file:///mod.ts" (.str ">=1.8.0") false =
      (.error (.rangeError "Invalid array length"), []) :=
  ⟨claim_C9_theorem.1 runningMinor101 "file:///mod.ts" ">=1.0.0" false 101
      (by decide) (by decide) (by decide),
    claim_C9_theorem.2 runningPatch501 "file:///mod.ts" ">=1.8.0" false true 501
      (by decide) (by decide) (by decide) (by decide) (by decide)⟩

/-! ## Claim C10 -/

/-- C10: on a mapping argument the caller's requirement object is never
mutated: threading the object through every property access the source
performs (`Object.keys(version)` and the reads `version[key]`), the object
that comes out is the one that went in — whether the call returns normally
or throws — and the outcome agrees with the plain embedding, in both
variants. -/
theorem claim_C10_theorem :
    ∀ (running : Key → String) (selfUrl : String) (catalog : List Triple)
      (entries : ReqEntries) (logs : Bool) (importer : Option String),
      ensureVersionSimpleObj running selfUrl entries logs =
        (ensureVersionSimple running selfUrl (.map entries) logs, entries) ∧
      ensureVersionCatalogObj running catalog entries logs importer =
        (ensureVersionCatalog running catalog (.map entries) logs importer, entries) := by
  intro running selfUrl catalog entries logs importer
  constructor
  · show ensureVersionSimpleObj running selfUrl entries logs =
      (ensureCoreSimple running selfUrl entries logs, entries)
    unfold ensureVersionSimpleObj ensureCoreSimple
    by_cases he : entries.length = 0
    · rw [if_pos he, if_pos he]
    · rw [if_neg he, if_neg he]
      exact @runLoopObj_frame (simpleKeyStepObj running selfUrl logs)
        (fun k => simpleKeyStep (trunc3 (running k)) (lookupEntry entries k) selfUrl logs k)
        entries (fun k => rfl) canonicalKeys []
  · show ensureVersionCatalogObj running catalog entries logs importer =
      (ensureCoreCatalog running catalog entries logs (importerNameOf importer), entries)
    unfold ensureVersionCatalogObj ensureCoreCatalog
    by_cases he : entries.length = 0
    · rw [if_pos he, if_pos he]
    · rw [if_neg he, if_neg he]
      exact @runLoopObj_frame (catalogKeyStepObj running catalog (importerNameOf importer) logs)
        (fun k => catalogKeyStep (trunc3 (running k)) (lookupEntry entries k) catalog
          (importerNameOf importer) logs k)
        entries (fun k => rfl) canonicalKeys []
